import Mathlib

/-!
# Verification of the `sns_to_glue` schema-resolution / validation / grouping engine

This file is a shallow embedding, in Lean 4, of the core logic of
`src/lambda/sns_to_glue/app.py` of the BridgeDownstream repository:

* `get_json_schema` — the layered schema resolver (assessment-exact tier,
  app-specific tier, global `anyOf` fallback);
* `parse_client_info_metadata` — the `clientinfo` header parser with its
  comma-separated `key=value` fallback;
* `validate_data` — the per-archive validation loop (schema resolution,
  schema fetch, the `taskData.json` exemption, error accumulation);
* the per-record loop of `lambda_handler` — validation-outcome routing
  (`mark_as_invalid` side channel) and `(appId, studyId)` batch aggregation.

Python dicts are modelled as insertion-ordered association lists (CPython
dicts preserve insertion order, which the grouping logic relies on).
Python exceptions are modelled with `Except PyErr`.  External collaborators
(the `requests` fetches, `boto3`/S3 object retrieval, the `json.loads` of
the opaque client-info string, the `jsonschema` validator and the zip
member decoding) are injected as oracle parameters / oracle fields, exactly
at their call interfaces; everything the repository itself computes is
translated structurally from the source.
-/

set_option linter.unusedVariables false

namespace BridgeDownstream

/-! ## Data model of `archive-map.json` (spec §3) -/

/-- One `{filename, jsonSchema}` entry of an assessment's `files` list, of an
app's `default.files` list or of an app's `anyOf` list.  In all three places
the source reads `file["jsonSchema"]` unconditionally, so the field is
required here. -/
structure FileEntry where
  filename : String
  jsonSchema : String
deriving DecidableEq, Repr

/-- One `{assessmentIdentifier, assessmentRevision}` reference inside an
app's `assessments` list. -/
structure AssessmentRef where
  assessmentIdentifier : String
  assessmentRevision : Int
deriving DecidableEq, Repr

/-- One entry of the archive map's top-level `assessments` list. -/
structure Assessment where
  assessmentIdentifier : String
  assessmentRevision : Int
  files : List FileEntry
deriving DecidableEq, Repr

/-- One entry of the archive map's `apps` list.  `defaultFiles` models
`app["default"]["files"]`. -/
structure AppEntry where
  appId : String
  assessments : List AssessmentRef
  defaultFiles : List FileEntry
  anyOf : List FileEntry
deriving DecidableEq, Repr

/-- One entry of the archive map's top-level `anyOf` list.  The source
guards this tier with `"jsonSchema" in file`, so the key is optional. -/
structure GlobalAnyOfEntry where
  filename : String
  jsonSchema : Option String
deriving DecidableEq, Repr

/-- The archive map: three top-level ordered collections. -/
structure ArchiveMap where
  assessments : List Assessment
  apps : List AppEntry
  anyOf : List GlobalAnyOfEntry
deriving DecidableEq, Repr

/-- A Python value, restricted to the shapes the embedded code can actually
feed through the dynamic spots (the client-info dict values).  Equality is
Python `==` restricted to these shapes: values of different shapes are
unequal, which is exactly how `app["appId"] == app_id` behaves when
`app_id` is not a string. -/
inductive PyVal where
  | str (s : String)
  | int (n : Int)
  | noneV
deriving DecidableEq, Repr

/-- The Python exceptions the embedded code can raise. -/
inductive PyErr where
  | typeError
  | valueError
  | keyError
  | indexError
  | connectionError
deriving DecidableEq, Repr

/-- The `json_schema_obj` dict built by `get_json_schema` (spec
`SchemaResolution`).  `error` is `None` until `validate_data` installs a
list of validation messages. -/
structure SchemaResolution where
  url : Option String
  allowed_app_specific_files : Option Bool
  error : Option (List String)
  archive_map_version : Option String
deriving DecidableEq, Repr

/-! ## The schema resolver `get_json_schema` -/

/-- First `{filename, jsonSchema}` entry of `files` whose `filename` equals
`file_name`; models each inner `for file in ...: if file["filename"] == file_name`
scan (first match wins). -/
def findFile (files : List FileEntry) (file_name : String) : Option String :=
  match files with
  | [] => none
  | f :: rest => if f.filename = file_name then some f.jsonSchema else findFile rest file_name

/-- The assessment-exact tier (source lines 177–183): scan `assessments` for
entries matching `(assessment_id, assessment_revision)`; inside each such
entry scan `files` for `file_name` and return its URL; a matching assessment
without the filename does not stop the outer scan. -/
def assessmentTier (assessments : List Assessment) (file_name assessment_id : String)
    (assessment_revision : Int) : Option String :=
  match assessments with
  | [] => none
  | a :: rest =>
      if a.assessmentIdentifier = assessment_id ∧ a.assessmentRevision = assessment_revision then
        match findFile a.files file_name with
        | some u => some u
        | none => assessmentTier rest file_name assessment_id assessment_revision
      else assessmentTier rest file_name assessment_id assessment_revision

/-- `any([a["assessmentIdentifier"] == assessment_id and
a["assessmentRevision"] == assessment_revision for a in app["assessments"]])`
(source lines 186–189): the `allowed_app_specific_files` computation. -/
def declaresAssessment (app : AppEntry) (assessment_id : String)
    (assessment_revision : Int) : Bool :=
  app.assessments.any fun a =>
    a.assessmentIdentifier == assessment_id && a.assessmentRevision == assessment_revision

/-- The effect of one iteration of `for app in archive_map["apps"]` (source
lines 184–199) on the mutable pair (`json_schema_obj["url"]`,
`json_schema_obj["allowed_app_specific_files"]`).  For a matching app the
flag is overwritten unconditionally; when app-specific files are allowed the
`default.files` scan runs first and the `anyOf` scan runs afterwards,
each overwriting `url` on a match (both loops `break` on first match). -/
def appEffect (file_name : String) (app_id : PyVal) (assessment_id : String)
    (assessment_revision : Int) (acc : Option String × Option Bool)
    (app : AppEntry) : Option String × Option Bool :=
  if PyVal.str app.appId = app_id then
    let allowed := declaresAssessment app assessment_id assessment_revision
    if allowed then
      let url_after_default :=
        match findFile app.defaultFiles file_name with
        | some u => some u
        | none => acc.1
      let url_after_anyOf :=
        match findFile app.anyOf file_name with
        | some u => some u
        | none => url_after_default
      (url_after_anyOf, some allowed)
    else (acc.1, some allowed)
  else acc

/-- The full `for app in archive_map["apps"]` loop: a left fold of
`appEffect` carrying the mutable (`url`, flag) state across iterations. -/
def appTierLoop (file_name : String) (app_id : PyVal) (assessment_id : String)
    (assessment_revision : Int) :
    Option String × Option Bool → List AppEntry → Option String × Option Bool
  | acc, [] => acc
  | acc, app :: rest =>
      appTierLoop file_name app_id assessment_id assessment_revision
        (appEffect file_name app_id assessment_id assessment_revision acc app) rest

/-- The global fallback tier (source lines 202–205): first top-level `anyOf`
entry whose `filename` matches and which has a `jsonSchema` key. -/
def globalAnyOf (entries : List GlobalAnyOfEntry) (file_name : String) : Option String :=
  match entries with
  | [] => none
  | f :: rest =>
      if f.filename = file_name ∧ f.jsonSchema.isSome then f.jsonSchema
      else globalAnyOf rest file_name

/-- `get_json_schema` (source lines 153–206), the spec's `resolve`.
`archive_map_version` models the ambient `os.environ.get("archive_map_version")`
read, passed in as an explicit environment parameter. -/
def get_json_schema (archive_map : ArchiveMap) (file_name : String) (app_id : PyVal)
    (assessment_id : String) (assessment_revision : Int)
    (archive_map_version : Option String) : SchemaResolution :=
  match assessmentTier archive_map.assessments file_name assessment_id assessment_revision with
  | some u =>
      { url := some u
        allowed_app_specific_files := none
        error := none
        archive_map_version := archive_map_version }
  | none =>
      let res := appTierLoop file_name app_id assessment_id assessment_revision
        (none, none) archive_map.apps
      match res.1 with
      | some u =>
          { url := some u
            allowed_app_specific_files := res.2
            error := none
            archive_map_version := archive_map_version }
      | none =>
          { url := globalAnyOf archive_map.anyOf file_name
            allowed_app_specific_files := res.2
            error := none
            archive_map_version := archive_map_version }

/-! ## Lemmas about the resolver tiers -/

/-- A successful assessment-tier scan exhibits a matching assessment entry
that lists the filename. -/
theorem assessmentTier_exists {l : List Assessment} {fn aid : String} {rev : Int} {u : String}
    (h : assessmentTier l fn aid rev = some u) :
    ∃ a ∈ l, a.assessmentIdentifier = aid ∧ a.assessmentRevision = rev ∧
      findFile a.files fn = some u := by
  induction l with
  | nil => simp [assessmentTier] at h
  | cons a rest ih =>
      rw [assessmentTier] at h
      by_cases hm : a.assessmentIdentifier = aid ∧ a.assessmentRevision = rev
      · rw [if_pos hm] at h
        cases hf : findFile a.files fn with
        | some w =>
            rw [hf] at h
            exact ⟨a, List.mem_cons_self a rest, hm.1, hm.2, by rw [hf]; exact h⟩
        | none =>
            rw [hf] at h
            obtain ⟨b, hb, hprop⟩ := ih h
            exact ⟨b, List.mem_cons_of_mem a hb, hprop⟩
      · rw [if_neg hm] at h
        obtain ⟨b, hb, hprop⟩ := ih h
        exact ⟨b, List.mem_cons_of_mem a hb, hprop⟩

/-- `appEffect` is the identity on apps whose `appId` does not match. -/
theorem appEffect_of_ne {fn : String} {app_id : PyVal} {aid : String} {rev : Int}
    {acc : Option String × Option Bool} {app : AppEntry}
    (h : PyVal.str app.appId ≠ app_id) :
    appEffect fn app_id aid rev acc app = acc := by
  simp [appEffect, h]

/-- The app-tier loop is the identity when no app entry matches the appId. -/
theorem appTierLoop_of_no_match {fn : String} {app_id : PyVal} {aid : String} {rev : Int}
    {acc : Option String × Option Bool} {l : List AppEntry}
    (h : ∀ app ∈ l, PyVal.str app.appId ≠ app_id) :
    appTierLoop fn app_id aid rev acc l = acc := by
  induction l generalizing acc with
  | nil => rfl
  | cons a rest ih =>
      rw [appTierLoop, appEffect_of_ne (h a (List.mem_cons_self a rest))]
      exact ih fun app hm => h app (List.mem_cons_of_mem a hm)

/-- When every matching app entry fails to declare the assessment pair, the
app-tier loop leaves the url component untouched. -/
theorem appTierLoop_url_of_not_allowed {fn : String} {app_id : PyVal} {aid : String} {rev : Int}
    {acc : Option String × Option Bool} {l : List AppEntry}
    (h : ∀ app ∈ l, PyVal.str app.appId = app_id → declaresAssessment app aid rev = false) :
    (appTierLoop fn app_id aid rev acc l).1 = acc.1 := by
  induction l generalizing acc with
  | nil => rfl
  | cons a rest ih =>
      rw [appTierLoop]
      by_cases hm : PyVal.str a.appId = app_id
      · have hd := h a (List.mem_cons_self a rest) hm
        have : appEffect fn app_id aid rev acc a = (acc.1, some false) := by
          simp [appEffect, hm, hd]
        rw [this]
        exact ih fun app hmem => h app (List.mem_cons_of_mem a hmem)
      · rw [appEffect_of_ne hm]
        exact ih fun app hmem => h app (List.mem_cons_of_mem a hmem)

/-- When every matching app entry fails to declare the assessment pair and at
least one app entry matches, the loop reports the flag as `false`. -/
theorem appTierLoop_flag_of_not_allowed {fn : String} {app_id : PyVal} {aid : String} {rev : Int}
    {acc : Option String × Option Bool} {l : List AppEntry}
    (h : ∀ app ∈ l, PyVal.str app.appId = app_id → declaresAssessment app aid rev = false)
    (hex : ∃ app ∈ l, PyVal.str app.appId = app_id) :
    (appTierLoop fn app_id aid rev acc l).2 = some false := by
  induction l generalizing acc with
  | nil => obtain ⟨app, hmem, _⟩ := hex; exact absurd hmem (List.not_mem_nil app)
  | cons a rest ih =>
      rw [appTierLoop]
      by_cases hm : PyVal.str a.appId = app_id
      · have hd := h a (List.mem_cons_self a rest) hm
        have heff : appEffect fn app_id aid rev acc a = (acc.1, some false) := by
          simp [appEffect, hm, hd]
        rw [heff]
        by_cases hrest : ∃ app ∈ rest, PyVal.str app.appId = app_id
        · exact ih (fun app hmem => h app (List.mem_cons_of_mem a hmem)) hrest
        · have : ∀ app ∈ rest, PyVal.str app.appId ≠ app_id := by
            intro app hmem hca
            exact hrest ⟨app, hmem, hca⟩
          rw [appTierLoop_of_no_match this]
      · rw [appEffect_of_ne hm]
        obtain ⟨app, hmem, happ⟩ := hex
        rcases List.mem_cons.mp hmem with heq | hmem2
        · exact absurd (heq ▸ happ) hm
        · exact ih (fun app hmem => h app (List.mem_cons_of_mem a hmem)) ⟨app, hmem2, happ⟩

/-- When exactly one app entry matches the appId, the whole app-tier loop is
the effect of that single entry. -/
theorem appTierLoop_of_filter_single {fn : String} {app_id : PyVal} {aid : String} {rev : Int}
    {acc : Option String × Option Bool} {l : List AppEntry} {app : AppEntry}
    (h : l.filter (fun a => PyVal.str a.appId == app_id) = [app]) :
    appTierLoop fn app_id aid rev acc l = appEffect fn app_id aid rev acc app := by
  induction l generalizing acc with
  | nil => simp [List.filter] at h
  | cons a rest ih =>
      rw [appTierLoop]
      rw [List.filter_cons] at h
      by_cases hm : PyVal.str a.appId = app_id
      · simp only [hm, beq_self_eq_true, if_true, List.cons_eq_cons] at h
        obtain ⟨heq, hrest⟩ := h
        have hnone : ∀ b ∈ rest, PyVal.str b.appId ≠ app_id := by
          intro b hb hbeq
          have : b ∈ rest.filter (fun a => PyVal.str a.appId == app_id) :=
            List.mem_filter.mpr ⟨hb, by simp [hbeq]⟩
          rw [hrest] at this
          exact absurd this (List.not_mem_nil b)
        rw [appTierLoop_of_no_match hnone, heq]
      · have hfa : (PyVal.str a.appId == app_id) = false := by
          simp [hm]
        rw [hfa, if_neg (by simp)] at h
        rw [appEffect_of_ne hm]
        exact ih h

/-! ## Claims about the resolver -/

/-- Concrete map for claim C1: one app, allowed, with the same filename in
both its `default.files` and its `anyOf` list. -/
def c1App : AppEntry :=
  { appId := "app1"
    assessments := [⟨"A", 1⟩]
    defaultFiles := [⟨"f.json", "http://s/default.json"⟩]
    anyOf := [⟨"f.json", "http://s/anyof.json"⟩] }

/-- Archive map containing only `c1App`. -/
def c1Map : ArchiveMap := { assessments := [], apps := [c1App], anyOf := [] }

/-- Claim C1 (counterexample): the app's `default.files` lists `f.json`, the
app allows app-specific files, and yet `resolve` returns the `anyOf` URL —
the `anyOf` scan ran although `default.files` had already matched, and its
match replaced the `default.files` URL.  The claim that the app's `anyOf`
list is consulted only when `default.files` has no match is therefore false
on the code. -/
theorem claim_C1_counterexample :
    findFile c1App.defaultFiles "f.json" = some "http://s/default.json" ∧
    (get_json_schema c1Map "f.json" (.str "app1") "A" 1 none).allowed_app_specific_files
      = some true ∧
    (get_json_schema c1Map "f.json" (.str "app1") "A" 1 none).url
      = some "http://s/anyof.json" := by
  decide

/-- Claim C1 (amended): in the app-specific tier, when the single matching
app allows app-specific files, `default.files` is scanned first but the
`anyOf` list is always scanned afterwards and an `anyOf` match overwrites
any URL found in `default.files`; a `default.files` match is returned only
when the app's `anyOf` has no entry for the filename. -/
theorem claim_C1_amended (am : ArchiveMap) (fn : String) (app_id : PyVal)
    (aid : String) (rev : Int) (v : Option String) (app : AppEntry)
    (h1 : assessmentTier am.assessments fn aid rev = none)
    (h2 : am.apps.filter (fun a => PyVal.str a.appId == app_id) = [app])
    (h3 : declaresAssessment app aid rev = true) :
    (∀ u, findFile app.anyOf fn = some u →
        (get_json_schema am fn app_id aid rev v).url = some u) ∧
    (findFile app.anyOf fn = none → ∀ u, findFile app.defaultFiles fn = some u →
        (get_json_schema am fn app_id aid rev v).url = some u) := by
  have hmatch : PyVal.str app.appId = app_id := by
    have : app ∈ am.apps.filter (fun a => PyVal.str a.appId == app_id) := by
      rw [h2]; exact List.mem_singleton.mpr rfl
    have := (List.mem_filter.mp this).2
    exact eq_of_beq this
  have hloop := @appTierLoop_of_filter_single fn app_id aid rev
    ((none : Option String), (none : Option Bool)) am.apps app h2
  constructor
  · intro u hu
    have hres : appTierLoop fn app_id aid rev (none, none) am.apps = (some u, some true) := by
      rw [hloop]
      simp [appEffect, hmatch, h3, hu]
    rw [get_json_schema, h1, hres]
  · intro hnone u hu
    have hres : appTierLoop fn app_id aid rev (none, none) am.apps = (some u, some true) := by
      rw [hloop]
      simp [appEffect, hmatch, h3, hu, hnone]
    rw [get_json_schema, h1, hres]

/-- Claim C1 (witness for the amended theorem), at the concrete map `c1Map`:
the `anyOf` match wins, and on a filename present only in `default.files`
the `default.files` match is returned. -/
theorem claim_C1_witness :
    declaresAssessment c1App "A" 1 = true ∧
    (get_json_schema c1Map "f.json" (.str "app1") "A" 1 none).url
      = some "http://s/anyof.json" := by
  refine ⟨by decide, ?_⟩
  exact (claim_C1_amended c1Map "f.json" (.str "app1") "A" 1 none c1App
    (by decide) (by decide) (by decide)).1 "http://s/anyof.json" (by decide)

/-- Concrete map for claim C2, the spec §8 example: an assessment-exact
entry for `x.json` and an app declaring the same assessment pair with a
conflicting `anyOf` entry for the same filename. -/
def c2Map : ArchiveMap :=
  { assessments := [⟨"A1", 1, [⟨"x.json", "http://s/a1.json"⟩]⟩]
    apps := [{ appId := "app1"
               assessments := [⟨"A1", 1⟩]
               defaultFiles := []
               anyOf := [⟨"x.json", "http://s/default.json"⟩] }]
    anyOf := [] }

/-- Claim C2: whenever the assessment-exact tier finds a URL for the
filename, `resolve` returns exactly that URL, for every `apps` and global
`anyOf` content of the archive map (so in particular even when the matching
app declares a conflicting `anyOf` entry for the same filename); and the
URL indeed comes from an assessment entry matching `(assessment_id,
assessment_revision)` exactly that lists the filename. -/
theorem claim_C2_assessment_tier_dominates (am : ArchiveMap) (fn : String)
    (app_id : PyVal) (aid : String) (rev : Int) (v : Option String) (u : String)
    (h : assessmentTier am.assessments fn aid rev = some u) :
    (get_json_schema am fn app_id aid rev v).url = some u ∧
    ∃ a ∈ am.assessments, a.assessmentIdentifier = aid ∧ a.assessmentRevision = rev ∧
      findFile a.files fn = some u := by
  constructor
  · rw [get_json_schema, h]
  · exact assessmentTier_exists h

/-- Claim C2 (witness): at the spec §8 example map, `resolve` returns the
assessment-tier URL `http://s/a1.json`, not the app's conflicting
`http://s/default.json`. -/
theorem claim_C2_witness :
    assessmentTier c2Map.assessments "x.json" "A1" 1 = some "http://s/a1.json" ∧
    (get_json_schema c2Map "x.json" (.str "app1") "A1" 1 none).url
      = some "http://s/a1.json" := by
  refine ⟨by decide, ?_⟩
  exact (claim_C2_assessment_tier_dominates c2Map "x.json" (.str "app1") "A1" 1 none
    "http://s/a1.json" (by decide)).1

/-- Concrete app for claim C9's counterexample: matches the requested appId
but does not declare the requested assessment pair. -/
def c9App : AppEntry :=
  { appId := "app1", assessments := [], defaultFiles := [], anyOf := [] }

/-- Archive map for claim C9's counterexample: the assessment-exact tier
resolves the filename, so the app loop never runs. -/
def c9Map : ArchiveMap :=
  { assessments := [⟨"A", 1, [⟨"f.json", "u"⟩]⟩], apps := [c9App], anyOf := [] }

/-- Claim C9 (counterexample): `c9App` matches appId `"app1"` and does not
declare `("A", 1)`, yet `resolve` reports `allowedAppSpecificFiles` as the
null sentinel (`none`), not `false`: the assessment-exact tier returned
early and the flag was never computed.  The claim that the flag is reported
as `false` for every such app entry is therefore false on the code. -/
theorem claim_C9_counterexample :
    c9Map.apps = [c9App] ∧
    c9App.appId = "app1" ∧
    declaresAssessment c9App "A" 1 = false ∧
    (get_json_schema c9Map "f.json" (.str "app1") "A" 1 none).allowed_app_specific_files
      ≠ some false ∧
    (get_json_schema c9Map "f.json" (.str "app1") "A" 1 none).allowed_app_specific_files
      = none := by
  decide

/-- Claim C9 (amended): when the assessment-exact tier does not resolve the
filename, and every app entry matching the appId fails to declare the
`(assessment_id, assessment_revision)` pair (with at least one entry
matching), `resolve` reports `allowedAppSpecificFiles = false` and the URL
is exactly the global `anyOf` fallback result — the matching apps'
`default.files` and `anyOf` lists are never consulted, and the flag is
reported even when the resolution ultimately yields `url = none`. -/
theorem claim_C9_amended (am : ArchiveMap) (fn : String) (app_id : PyVal)
    (aid : String) (rev : Int) (v : Option String)
    (h1 : assessmentTier am.assessments fn aid rev = none)
    (h2 : ∀ app ∈ am.apps, PyVal.str app.appId = app_id →
        declaresAssessment app aid rev = false)
    (h3 : ∃ app ∈ am.apps, PyVal.str app.appId = app_id) :
    (get_json_schema am fn app_id aid rev v).allowed_app_specific_files = some false ∧
    (get_json_schema am fn app_id aid rev v).url = globalAnyOf am.anyOf fn := by
  have hurl : (appTierLoop fn app_id aid rev (none, none) am.apps).1 = none :=
    appTierLoop_url_of_not_allowed h2
  have hflag : (appTierLoop fn app_id aid rev (none, none) am.apps).2 = some false :=
    appTierLoop_flag_of_not_allowed h2 h3
  have hres : appTierLoop fn app_id aid rev (none, none) am.apps = (none, some false) := by
    rw [Prod.ext_iff]; exact ⟨hurl, hflag⟩
  rw [get_json_schema, h1, hres]
  exact ⟨rfl, rfl⟩

/-- Archive map for claim C9's witness: a non-allowed app whose file lists
would conflict with the global fallback if they were consulted. -/
def c9bMap : ArchiveMap :=
  { assessments := []
    apps := [{ appId := "app1", assessments := [],
               defaultFiles := [⟨"f.json", "http://s/app-default.json"⟩],
               anyOf := [⟨"f.json", "http://s/app-anyof.json"⟩] }]
    anyOf := [⟨"f.json", some "http://s/global.json"⟩] }

/-- Claim C9 (witness for the amended theorem): at `c9bMap` the flag is
reported as `false` and the URL is the global fallback, bypassing the
non-allowed app's own file lists. -/
theorem claim_C9_witness :
    (∀ app ∈ c9bMap.apps, PyVal.str app.appId = PyVal.str "app1" →
        declaresAssessment app "A" 1 = false) ∧
    (get_json_schema c9bMap "f.json" (.str "app1") "A" 1 none).allowed_app_specific_files
      = some false ∧
    (get_json_schema c9bMap "f.json" (.str "app1") "A" 1 none).url
      = globalAnyOf c9bMap.anyOf "f.json" := by
  refine ⟨by decide, ?_, ?_⟩
  · exact (claim_C9_amended c9bMap "f.json" (.str "app1") "A" 1 none
      (by decide) (by decide) (by decide)).1
  · exact (claim_C9_amended c9bMap "f.json" (.str "app1") "A" 1 none
      (by decide) (by decide) (by decide)).2

/-- Claim C10: `resolve` is pure and deterministic — two invocations with
identical archive map, filename, appId, assessmentId, assessmentRevision
(and the same ambient `archive_map_version` environment value, which is
constant within a process) produce identical `SchemaResolution` outputs.
The embedding is total and stateless, so equality of inputs forces equality
of outputs. -/
theorem claim_C10_resolve_deterministic (am₁ am₂ : ArchiveMap) (fn₁ fn₂ : String)
    (app₁ app₂ : PyVal) (aid₁ aid₂ : String) (rev₁ rev₂ : Int) (v₁ v₂ : Option String)
    (ham : am₁ = am₂) (hfn : fn₁ = fn₂) (happ : app₁ = app₂) (haid : aid₁ = aid₂)
    (hrev : rev₁ = rev₂) (hv : v₁ = v₂) :
    get_json_schema am₁ fn₁ app₁ aid₁ rev₁ v₁ = get_json_schema am₂ fn₂ app₂ aid₂ rev₂ v₂ := by
  subst ham hfn happ haid hrev hv
  rfl

/-- Tiny archive map used only by the C10 witness. -/
def c10Map : ArchiveMap :=
  { assessments := [⟨"B", 2, [⟨"g.json", "http://s/g.json"⟩]⟩], apps := [], anyOf := [] }

/-- Claim C10 (witness): determinism instantiated at a concrete input. -/
theorem claim_C10_witness :
    c10Map = c10Map ∧
    get_json_schema c10Map "g.json" (.str "appX") "B" 2 (some "v1")
      = get_json_schema c10Map "g.json" (.str "appX") "B" 2 (some "v1") := by
  exact ⟨rfl, claim_C10_resolve_deterministic c10Map c10Map "g.json" "g.json"
    (.str "appX") (.str "appX") "B" "B" 2 2 (some "v1") (some "v1")
    rfl rfl rfl rfl rfl rfl⟩

/-! ## Batch aggregation (`lambda_handler`, source lines 306–316)

Python dicts preserve insertion order; the `messages` dict-of-dicts is
modelled as nested association lists whose `assocSet` updates an existing
key in place and appends a new key at the end, exactly like CPython dict
assignment. -/

/-- First value for `key` in an association list (Python dict lookup /
membership test). -/
def assocFind {α : Type} : List (String × α) → String → Option α
  | [], _ => none
  | (k, v) :: rest, key => if k = key then some v else assocFind rest key

/-- Python dict assignment `d[key] = v`: overwrite in place if present,
append at the end otherwise. -/
def assocSet {α : Type} : List (String × α) → String → α → List (String × α)
  | [], key, v => [(key, v)]
  | (k, w) :: rest, key, v =>
      if k = key then (k, v) :: rest else (k, w) :: assocSet rest key v

/-- The `messages` structure: appId ↦ studyId ↦ ordered list of payloads. -/
abbrev Groups (M : Type) : Type := List (String × List (String × List M))

/-- Lookup of one `(appId, studyId)` group. -/
def lookupGroup {M : Type} (m : Groups M) (app study : String) : Option (List M) :=
  match assocFind m app with
  | none => none
  | some inner => assocFind inner study

/-- One iteration of `for study in related_studies` (source lines 308–316):
create the app's dict with `{study: []}` if the app is new, then append to
the study's list if present, else create a one-element list. -/
def addStudy {M : Type} (m : Groups M) (app study : String) (x : M) : Groups M :=
  let m1 := match assocFind m app with
    | some _ => m
    | none => assocSet m app [(study, [])]
  let inner := (assocFind m1 app).getD []
  let inner2 := match assocFind inner study with
    | some l => assocSet inner study (l ++ [x])
    | none => assocSet inner study [x]
  assocSet m1 app inner2

/-- The whole `for study in related_studies` loop for one record. -/
def addRecord {M : Type} (m : Groups M) (app : String) (studies : List String)
    (x : M) : Groups M :=
  studies.foldl (fun acc study => addStudy acc app study x) m

/-- One aggregation input: the record's `appId`, the keys of its
`studyRecords` dict, and its `message_parameters` payload. -/
structure AggRecord (M : Type) where
  app : String
  studies : List String
  payload : M
deriving DecidableEq, Repr

/-- The aggregation part of the `for record in event["Records"]` loop,
starting from an arbitrary accumulated state. -/
def aggLoop {M : Type} (m : Groups M) (recs : List (AggRecord M)) : Groups M :=
  recs.foldl (fun acc r => addRecord acc r.app r.studies r.payload) m

/-- Aggregation of a whole invocation's records, starting from the empty
`messages` dict. -/
def aggregate {M : Type} (recs : List (AggRecord M)) : Groups M :=
  aggLoop [] recs

/-! ### Association-list and aggregation lemmas -/

theorem assocFind_assocSet_self {α : Type} (m : List (String × α)) (k : String) (v : α) :
    assocFind (assocSet m k v) k = some v := by
  induction m with
  | nil => simp [assocFind, assocSet]
  | cons p rest ih =>
      obtain ⟨k0, w⟩ := p
      by_cases h : k0 = k
      · simp [assocFind, assocSet, h]
      · simp [assocFind, assocSet, h, ih]

theorem assocFind_assocSet_other {α : Type} (m : List (String × α)) (k k' : String)
    (v : α) (h : k ≠ k') :
    assocFind (assocSet m k v) k' = assocFind m k' := by
  induction m with
  | nil => simp [assocFind, assocSet, h]
  | cons p rest ih =>
      obtain ⟨k0, w⟩ := p
      by_cases h0 : k0 = k
      · subst h0
        simp [assocFind, assocSet, h]
      · simp only [assocSet, if_neg h0, assocFind]
        by_cases h1 : k0 = k'
        · simp [h1]
        · simp [h1, ih]

/-- Effect of `addStudy` on the group it targets: append to the existing
sequence, or create a one-element sequence when the pair is new. -/
theorem lookupGroup_addStudy_self {M : Type} (m : Groups M) (app study : String) (x : M) :
    lookupGroup (addStudy m app study x) app study
      = some ((lookupGroup m app study).getD [] ++ [x]) := by
  unfold addStudy lookupGroup
  cases hfind : assocFind m app with
  | none =>
      simp only [hfind]
      simp [assocFind_assocSet_self, assocFind]
  | some inner =>
      simp only [hfind, Option.getD_some]
      cases hstudy : assocFind inner study with
      | none => simp [hstudy, assocFind_assocSet_self]
      | some l => simp [hstudy, assocFind_assocSet_self]

/-- `addStudy` leaves every other `(appId, studyId)` group unchanged. -/
theorem lookupGroup_addStudy_other {M : Type} (m : Groups M) (app study a s : String)
    (x : M) (h : ¬(a = app ∧ s = study)) :
    lookupGroup (addStudy m app study x) a s = lookupGroup m a s := by
  unfold addStudy lookupGroup
  by_cases ha : a = app
  · subst ha
    have hs : study ≠ s := fun he => h ⟨rfl, he.symm⟩
    cases hfind : assocFind m a with
    | none =>
        simp only [hfind]
        simp [assocFind_assocSet_self, assocFind,
          assocFind_assocSet_other _ _ _ _ hs, hs]
    | some inner =>
        simp only [hfind, Option.getD_some]
        cases hstudy : assocFind inner study with
        | none =>
            simp [hstudy, assocFind_assocSet_self,
              assocFind_assocSet_other _ _ _ _ hs]
        | some l =>
            simp [hstudy, assocFind_assocSet_self,
              assocFind_assocSet_other _ _ _ _ hs]
  · have ha2 : app ≠ a := fun he => ha he.symm
    cases hfind : assocFind m app with
    | none =>
        simp only [hfind]
        simp [assocFind_assocSet_other _ _ _ _ ha2]
    | some inner =>
        simp only [hfind, Option.getD_some]
        simp [assocFind_assocSet_other _ _ _ _ ha2]

/-- Effect of a whole record (one `for study in related_studies` loop) on a
single `(appId, studyId)` group, given that the record's studies are
distinct (they are the keys of the `studyRecords` dict in the source). -/
theorem lookupGroup_addRecord {M : Type} (m : Groups M) (app : String)
    (studies : List String) (x : M) (a s : String) (hnd : studies.Nodup) :
    lookupGroup (addRecord m app studies x) a s =
      if a = app ∧ s ∈ studies then some ((lookupGroup m a s).getD [] ++ [x])
      else lookupGroup m a s := by
  induction studies generalizing m with
  | nil => simp [addRecord]
  | cons st rest ih =>
      have hnotin : st ∉ rest := (List.nodup_cons.mp hnd).1
      have hndrest : rest.Nodup := (List.nodup_cons.mp hnd).2
      have hstep : addRecord m app (st :: rest) x
          = addRecord (addStudy m app st x) app rest x := by
        simp [addRecord, List.foldl_cons]
      rw [hstep, ih _ hndrest]
      by_cases hcase : a = app ∧ s ∈ rest
      · rw [if_pos hcase]
        have hne : ¬(a = app ∧ s = st) := by
          rintro ⟨_, rfl⟩
          exact hnotin hcase.2
        rw [lookupGroup_addStudy_other m app st a s x hne,
          if_pos ⟨hcase.1, List.mem_cons_of_mem st hcase.2⟩]
      · rw [if_neg hcase]
        by_cases hhead : a = app ∧ s = st
        · obtain ⟨rfl, rfl⟩ := hhead
          rw [lookupGroup_addStudy_self, if_pos ⟨rfl, List.mem_cons_self s rest⟩]
        · rw [lookupGroup_addStudy_other m app st a s x hhead]
          have : ¬(a = app ∧ s ∈ st :: rest) := by
            rintro ⟨rfl, hmem⟩
            rcases List.mem_cons.mp hmem with rfl | hmem2
            · exact hhead ⟨rfl, rfl⟩
            · exact hcase ⟨rfl, hmem2⟩
          rw [if_neg this]

/-- The `(a, s)` group after aggregating `recs` on top of `m` is the old
group extended, in arrival order, with the payloads of exactly those records
whose `appId` is `a` and whose study set contains `s`. -/
theorem lookupGroup_aggLoop {M : Type} (m : Groups M) (recs : List (AggRecord M))
    (a s : String) (hnd : ∀ r ∈ recs, r.studies.Nodup) :
    lookupGroup (aggLoop m recs) a s =
      (let contrib := (recs.filter fun r =>
          r.app == a && r.studies.contains s).map AggRecord.payload
       if contrib.isEmpty then lookupGroup m a s
       else some ((lookupGroup m a s).getD [] ++ contrib)) := by
  induction recs generalizing m with
  | nil => simp [aggLoop]
  | cons r rest ih =>
      have hstep : aggLoop m (r :: rest) = aggLoop (addRecord m r.app r.studies r.payload) rest := by
        simp [aggLoop, List.foldl_cons]
      rw [hstep, ih _ fun q hq => hnd q (List.mem_cons_of_mem r hq)]
      rw [List.filter_cons]
      by_cases hp : r.app = a ∧ s ∈ r.studies
      · have hcond : (r.app == a && r.studies.contains s) = true := by
          simp only [Bool.and_eq_true, beq_iff_eq, List.elem_eq_mem, decide_eq_true_eq]
          exact ⟨hp.1, hp.2⟩
        rw [hcond, if_pos rfl]
        have hrec := lookupGroup_addRecord m r.app r.studies r.payload a s
          (hnd r (List.mem_cons_self r rest))
        rw [if_pos ⟨hp.1.symm, hp.2⟩] at hrec
        simp only [List.map_cons, List.isEmpty_cons, hrec]
        rcases hrest : ((rest.filter fun q =>
            q.app == a && q.studies.contains s).map AggRecord.payload) with _ | ⟨y, ys⟩
        · simp
        · simp
      · have hcond : ¬((r.app == a && r.studies.contains s) = true) := by
          simp only [Bool.and_eq_true, beq_iff_eq, List.elem_eq_mem, decide_eq_true_eq]
          exact hp
        rw [Bool.not_eq_true] at hcond
        rw [hcond]
        have hne : ¬(a = r.app ∧ s ∈ r.studies) := fun hh => hp ⟨hh.1.symm, hh.2⟩
        have hrec := lookupGroup_addRecord m r.app r.studies r.payload a s
          (hnd r (List.mem_cons_self r rest))
        rw [if_neg hne] at hrec
        simp only [hrec]
        simp

/-- Claim C6: batch aggregation is deterministic/idempotent (the same input
sequence, folded in the same order, always produces identical groups), and
it preserves arrival order within each `(appId, studyId)` group: the group
for `(a, s)` is exactly the payloads, in arrival order, of the records whose
appId is `a` and whose (duplicate-free, since the source takes the keys of
the `studyRecords` dict) study set contains `s`; the group is absent when no
record matches. -/
theorem claim_C6_aggregation_deterministic_order {M : Type} (recs : List (AggRecord M))
    (a s : String) (hnd : ∀ r ∈ recs, r.studies.Nodup) :
    (∀ recs2, recs2 = recs → aggregate recs2 = aggregate recs) ∧
    lookupGroup (aggregate recs) a s =
      (let contrib := (recs.filter fun r =>
          r.app == a && r.studies.contains s).map AggRecord.payload
       if contrib.isEmpty then none else some contrib) := by
  refine ⟨fun recs2 h => by rw [h], ?_⟩
  rw [aggregate, lookupGroup_aggLoop _ _ _ _ hnd]
  have hempty : lookupGroup ([] : Groups M) a s = none := rfl
  simp only [hempty, Option.getD_none, List.nil_append]

/-- Input list for the C6 witness. -/
def c6Recs : List (AggRecord Nat) :=
  [⟨"a", ["s"], 5⟩, ⟨"b", ["s"], 6⟩, ⟨"a", ["s", "t"], 7⟩]

/-- Claim C6 (witness): the characterization at a concrete input sequence. -/
theorem claim_C6_witness :
    (∀ r ∈ c6Recs, r.studies.Nodup) ∧
    lookupGroup (aggregate c6Recs) "a" "s" =
      (let contrib := (c6Recs.filter fun r =>
          r.app == "a" && r.studies.contains "s").map AggRecord.payload
       if contrib.isEmpty then none else some contrib) :=
  ⟨by decide, (claim_C6_aggregation_deterministic_order c6Recs "a" "s" (by decide)).2⟩

/-- Claim C7: each record is grouped under every studyId of its study set —
`addStudy` creates a new one-element sequence for a new `(appId, studyId)`
pair and appends (preserving order) otherwise — and the concrete example of
the claim: records for app `app1` with study sets `[s1]` and `[s1, s2]`,
in that order, yield exactly the groups
`app1 ↦ (s1 ↦ [rec1, rec2], s2 ↦ [rec2])`, rec1 before rec2 in s1. -/
theorem claim_C7_group_create_append :
    (∀ (M : Type) (m : Groups M) (app study : String) (x : M),
        lookupGroup (addStudy m app study x) app study
          = some ((lookupGroup m app study).getD [] ++ [x])) ∧
    aggregate [⟨"app1", ["s1"], (1 : Nat)⟩, ⟨"app1", ["s1", "s2"], 2⟩]
      = [("app1", [("s1", [1, 2]), ("s2", [2])])] := by
  exact ⟨fun M m app study x => lookupGroup_addStudy_self m app study x, by decide⟩

/-! ## Client-info header parsing (`parse_client_info_metadata`) -/

/-- ASCII whitespace as stripped by CPython `int(str)`. -/
def isPySpace (c : Char) : Bool :=
  c = ' ' || c = '\t' || c = '\n' || c = '\r' || c = '\x0B' || c = '\x0C'

/-- Strip leading and trailing whitespace from a character list. -/
def stripSpaces (l : List Char) : List Char :=
  ((l.dropWhile isPySpace).reverse.dropWhile isPySpace).reverse

/-- CPython `int(s)` on a string: strip surrounding whitespace, optional
sign, then a nonempty run of decimal digits (the underscore-grouping
extension of the literal syntax is not modelled; no input in this
development uses it).  `none` models a `ValueError`. -/
def pyIntOfString (s : String) : Option Int :=
  let chars := stripSpaces s.toList
  let signAndDigits : Bool × List Char :=
    match chars with
    | '-' :: rest => (true, rest)
    | '+' :: rest => (false, rest)
    | _ => (false, chars)
  let digits := signAndDigits.2
  if digits ≠ [] ∧ digits.all Char.isDigit then
    let n : Nat := digits.foldl (fun acc c => 10 * acc + (c.toNat - '0'.toNat)) 0
    some (if signAndDigits.1 then -(n : Int) else (n : Int))
  else none

/-- Python `str.split(sep)` for a one-character separator, structurally on
characters: splitting the empty string gives `[""]`, and `n` separators
give `n + 1` pieces. -/
def splitOnChar (c : Char) : List Char → List (List Char)
  | [] => [[]]
  | x :: rest =>
      let r := splitOnChar c rest
      if x = c then [] :: r
      else
        match r with
        | [] => [[x]]
        | h :: t => (x :: h) :: t

/-- `re.search(key + "[^,]+", s)` for a literal `key` (the source's
`appVersion=[^,]+` and `osName=[^,]+` patterns): the leftmost position where
`key` occurs followed by at least one non-comma character; the (greedy)
match is `key` followed by the maximal run of non-comma characters.
Returns the full matched text, i.e. `match.group()`. -/
def reSearchKeyVal (key : List Char) : List Char → Option (List Char)
  | [] => none
  | c :: rest =>
      if key.isPrefixOf (c :: rest) then
        let chunk := ((c :: rest).drop key.length).takeWhile (fun ch => ch ≠ ',')
        if chunk.isEmpty then reSearchKeyVal key rest
        else some (key ++ chunk)
      else reSearchKeyVal key rest

/-- String wrapper for `reSearchKeyVal`. -/
def reSearchKeyValStr (key s : String) : Option String :=
  (reSearchKeyVal key.toList s.toList).map fun l => String.mk l

/-- The `search.group().split("=")[1]` extraction applied to an optional
regex match (the two identical if/else blocks of the fallback, source lines
52–61): `None` stays `None`, a match is split on `=` and its second piece
taken (an out-of-range index would raise `IndexError`; it cannot occur
because every match contains the `=` of its key). -/
def splitValue (search_result : Option String) : Except PyErr (Option String) :=
  match search_result with
  | none => .ok none
  | some m =>
      match ((splitOnChar '=' m.toList).map fun l => String.mk l)[1]? with
      | some v => .ok (some v)
      | none => .error .indexError

/-- `parse_client_info_metadata` (source lines 30–66).  The outcome of the
`json.loads` attempt on the opaque client-info string is injected as
`json_loads_result` (`none` models a `JSONDecodeError`, sending the code to
the comma-separated `key=value` fallback, which is computed structurally).
A raised exception is an `Except.error`: in the fallback, `int(app_version)`
raises `TypeError` when the `appVersion=` regex found nothing
(`app_version` is `None`) and `ValueError` when the extracted text is not a
valid integer literal. -/
def parse_client_info_metadata (json_loads_result : Option (List (String × PyVal)))
    (client_info_str : String) : Except PyErr (List (String × PyVal)) :=
  match json_loads_result with
  | some client_info => .ok client_info
  | none =>
      let app_version_search := reSearchKeyValStr "appVersion=" client_info_str
      let os_name_search := reSearchKeyValStr "osName=" client_info_str
      let app_version : Except PyErr (Option String) := splitValue app_version_search
      let os_name : Except PyErr (Option String) := splitValue os_name_search
      match app_version with
      | .error e => .error e
      | .ok av => match os_name with
        | .error e => .error e
        | .ok osn =>
            match av with
            | none => .error .typeError
            | some avs =>
                match pyIntOfString avs with
                | none => .error .valueError
                | some avi =>
                    .ok [("appVersion", .int avi),
                         ("osName", match osn with
                           | some s2 => .str s2
                           | none => .noneV),
                         ("appName", .str "mobile-toolbox")]

/-! ## The archive validator `validate_data` -/

/-- `os.path.basename` for POSIX paths: the part after the last slash. -/
def basename (p : String) : String :=
  String.mk (p.toList.reverse.takeWhile fun c => c ≠ '/').reverse

/-- `os.path.dirname` for POSIX paths: everything up to the last slash,
with trailing slashes stripped unless the head is all slashes. -/
def dirname (p : String) : String :=
  let revChars := p.toList.reverse
  let headRev := revChars.drop (revChars.takeWhile (fun c => c ≠ '/')).length
  if headRev.isEmpty then ""
  else if headRev.all (fun c => c = '/') then String.mk headRev.reverse
  else String.mk (headRev.dropWhile (fun c => c = '/')).reverse

/-- Python dict subscript `d[key]`: `KeyError` when the key is absent. -/
def pyDictGet (d : List (String × PyVal)) (key : String) : Except PyErr PyVal :=
  match assocFind d key with
  | some v => .ok v
  | none => .error .keyError

/-- The `validation_result` dict built by `validate_data` (spec
`ValidationOutcome`); the `assessmendId` key typo is the source's own. -/
structure ValidationResult where
  assessmendId : String
  assessmentRevision : Int
  appId : PyVal
  recordId : String
  errors : List (String × SchemaResolution)
deriving DecidableEq, Repr

/-- The S3 object of one record as `validate_data` reads it: the metadata
headers, the zip member listing (`z.namelist()`), and a payload oracle
modelling `json.load(z.open(json_path))` per member.  `clientinfo_json`
injects the outcome of `json.loads` on the `clientinfo` header (`none`
models a `JSONDecodeError`). -/
structure S3Object (J : Type) where
  assessmentid : String
  assessmentrevision : String
  clientinfo : String
  clientinfo_json : Option (List (String × PyVal))
  recordid : String
  contents : List String
  payloads : String → Except PyErr J

/-- The `for json_path in contents` loop of `validate_data` (source lines
122–149), threading the `errors` dict.  `fetchSchema` models
`requests.get(json_schema_obj["url"])` followed by `r.json()` (its failures
are uncaught, hence `Except`); `validateAgainst` models
`validate_against_schema`, i.e. the external `jsonschema` validator chosen
for the schema's dialect, returning all violation messages.  A file whose
resolution has no URL is skipped; `taskData.json` is skipped after its
schema fetch and payload decode but before validation. -/
def validate_files {Schema J : Type} (archive_map : ArchiveMap)
    (archive_map_version : Option String) (app_id : PyVal) (assessment_id : String)
    (assessment_revision : Int) (fetchSchema : String → Except PyErr Schema)
    (validateAgainst : J → Schema → String → List String)
    (payloads : String → Except PyErr J) :
    List String → List (String × SchemaResolution) →
      Except PyErr (List (String × SchemaResolution))
  | [], errors => .ok errors
  | json_path :: rest, errors =>
      let file_name := basename json_path
      let json_schema_obj := get_json_schema archive_map file_name app_id
        assessment_id assessment_revision archive_map_version
      match json_schema_obj.url with
      | none =>
          validate_files archive_map archive_map_version app_id assessment_id
            assessment_revision fetchSchema validateAgainst payloads rest errors
      | some url =>
          match fetchSchema url with
          | .error e => .error e
          | .ok json_schema =>
              let base_uri := dirname url
              match payloads json_path with
              | .error e => .error e
              | .ok j =>
                  if json_path = "taskData.json" then
                    validate_files archive_map archive_map_version app_id assessment_id
                      assessment_revision fetchSchema validateAgainst payloads rest errors
                  else
                    let all_errors := validateAgainst j json_schema base_uri
                    if all_errors.length > 0 then
                      validate_files archive_map archive_map_version app_id assessment_id
                        assessment_revision fetchSchema validateAgainst payloads rest
                        (assocSet errors file_name
                          { json_schema_obj with error := some all_errors })
                    else
                      validate_files archive_map archive_map_version app_id assessment_id
                        assessment_revision fetchSchema validateAgainst payloads rest errors

/-- `validate_data` after the S3 object has been retrieved (source lines
108–150): read the metadata headers (`int(...)` of the revision and the
client-info parse can raise), look up `client_info["appName"]` (KeyError
can raise), then run the per-file loop. -/
def validate_data_obj {Schema J : Type} (archive_map : ArchiveMap)
    (archive_map_version : Option String) (fetchSchema : String → Except PyErr Schema)
    (validateAgainst : J → Schema → String → List String) (obj : S3Object J) :
    Except PyErr ValidationResult :=
  match pyIntOfString obj.assessmentrevision with
  | none => .error .valueError
  | some assessment_revision =>
      match parse_client_info_metadata obj.clientinfo_json obj.clientinfo with
      | .error e => .error e
      | .ok client_info =>
          match pyDictGet client_info "appName" with
          | .error e => .error e
          | .ok app_id =>
              match validate_files archive_map archive_map_version app_id
                  obj.assessmentid assessment_revision fetchSchema validateAgainst
                  obj.payloads obj.contents [] with
              | .error e => .error e
              | .ok errors =>
                  .ok { assessmendId := obj.assessmentid
                        assessmentRevision := assessment_revision
                        appId := app_id
                        recordId := obj.recordid
                        errors := errors }

/-- The `message_parameters` dict (stable key names for the trigger
payload). -/
structure MessageParameters where
  source_bucket : String
  source_key : String
  raw_folder_id : String
deriving DecidableEq, Repr

/-- `validate_data` (source lines 68–150): retrieve the S3 object through
the injected STS-scoped client, then validate it. -/
def validate_data {Schema J : Type} (archive_map : ArchiveMap)
    (archive_map_version : Option String) (fetchSchema : String → Except PyErr Schema)
    (validateAgainst : J → Schema → String → List String)
    (s3Get : MessageParameters → Except PyErr (S3Object J))
    (message_parameters : MessageParameters) : Except PyErr ValidationResult :=
  match s3Get message_parameters with
  | .error e => .error e
  | .ok obj => validate_data_obj archive_map archive_map_version fetchSchema validateAgainst obj

/-! ## The per-record loop of `lambda_handler` (source lines 285–316) -/

/-- One SQS record of the handler event after its two `json.loads` layers
(`body` and `Message`), restricted to the fields the loop body reads:
`message["record"]["s3Bucket" / "s3Key" / "rawFolderId"]`, the keys of
`message["studyRecords"]`, and `message["appId"]`. -/
structure HandlerRecord where
  s3Bucket : String
  s3Key : String
  rawFolderId : String
  studyRecords : List String
  appId : String
deriving DecidableEq, Repr

/-- The observable state the loop accumulates: the `messages` batch dict
and the sequence of validation results passed to `mark_as_invalid` — the
invalid-records side channel (whose body is currently a stub in the
source). -/
structure HandlerState where
  messages : Groups MessageParameters
  invalids : List ValidationResult
deriving DecidableEq, Repr

/-- The body of `for record in event["Records"]`: build
`message_parameters`, validate (exceptions propagate out — the loop has no
try/except), call `mark_as_invalid` when the errors dict is non-empty, then
aggregate the record under every related study regardless of validity. -/
def process_record {Schema J : Type} (archive_map : ArchiveMap)
    (archive_map_version : Option String) (fetchSchema : String → Except PyErr Schema)
    (validateAgainst : J → Schema → String → List String)
    (s3Get : MessageParameters → Except PyErr (S3Object J))
    (st : HandlerState) (record : HandlerRecord) : Except PyErr HandlerState :=
  let message_parameters : MessageParameters :=
    ⟨record.s3Bucket, record.s3Key, record.rawFolderId⟩
  match validate_data archive_map archive_map_version fetchSchema validateAgainst
      s3Get message_parameters with
  | .error e => .error e
  | .ok validation_result =>
      let st1 := if validation_result.errors.length > 0 then
          { st with invalids := st.invalids ++ [validation_result] }
        else st
      .ok { st1 with
            messages := addRecord st1.messages record.appId record.studyRecords
              message_parameters }

/-- The whole record loop.  An uncaught exception raised while processing
one record aborts the fold: the remaining records are never reached. -/
def process_records {Schema J : Type} (archive_map : ArchiveMap)
    (archive_map_version : Option String) (fetchSchema : String → Except PyErr Schema)
    (validateAgainst : J → Schema → String → List String)
    (s3Get : MessageParameters → Except PyErr (S3Object J)) :
    HandlerState → List HandlerRecord → Except PyErr HandlerState
  | st, [] => .ok st
  | st, r :: rest =>
      match process_record archive_map archive_map_version fetchSchema validateAgainst
          s3Get st r with
      | .error e => .error e
      | .ok st2 =>
          process_records archive_map archive_map_version fetchSchema validateAgainst
            s3Get st2 rest

/-! ## Claims about the client-info parser -/

/-- Claim C3 (counterexample): the clientinfo header `"garbage"` is not
JSON-decodable (its first character begins no JSON value, so `json.loads`
raises and the fallback runs — modelled by the injected `none`), and the
fallback finds no `appVersion=` segment, so `app_version` is `None` and
`int(app_version)` raises `TypeError`.  Parsing therefore *does* raise on a
malformed header instead of degrading to a null sentinel, and no
ValidationOutcome is produced for such a record. -/
theorem claim_C3_counterexample :
    reSearchKeyValStr "appVersion=" "garbage" = none ∧
    parse_client_info_metadata none "garbage" = .error .typeError := by
  constructor
  · rfl
  · rfl

/-- Claim C3 (amended): parsing of a clientinfo header that is not JSON
degrades to the comma-separated fallback without raising only when the
header contains an `appVersion=` segment whose extracted value is a valid
integer (and the `osName=` extraction does not itself raise); in that case
the resulting client info carries the fixed `appName`
`"mobile-toolbox"` — not a null sentinel.  A header with no parseable
integer `appVersion` raises (TypeError or ValueError) and produces no
ValidationOutcome. -/
theorem claim_C3_amended (client_info_str : String) (avs : String) (avi : Int)
    (h1 : splitValue (reSearchKeyValStr "appVersion=" client_info_str) = .ok (some avs))
    (h2 : ∃ osn, splitValue (reSearchKeyValStr "osName=" client_info_str) = .ok osn)
    (h3 : pyIntOfString avs = some avi) :
    ∃ d, parse_client_info_metadata none client_info_str = .ok d ∧
      assocFind d "appName" = some (.str "mobile-toolbox") := by
  obtain ⟨osn, h2⟩ := h2
  rw [parse_client_info_metadata]
  simp only [h1, h2, h3]
  cases osn with
  | none => exact ⟨_, rfl, rfl⟩
  | some s2 => exact ⟨_, rfl, rfl⟩

/-- Claim C3 (witness for the amended theorem): the fallback succeeds on
`"appVersion=42,osName=iOS"` and yields the fixed appName. -/
theorem claim_C3_witness :
    pyIntOfString "42" = some 42 ∧
    ∃ d, parse_client_info_metadata none "appVersion=42,osName=iOS" = .ok d ∧
      assocFind d "appName" = some (.str "mobile-toolbox") := by
  refine ⟨by rfl, ?_⟩
  exact claim_C3_amended "appVersion=42,osName=iOS" "42" 42
    (by rfl) ⟨some "iOS", by rfl⟩ (by rfl)

/-! ## Claims about the archive validator -/

/-- When every zip member either resolves to no schema URL or is the exempt
`taskData.json` entry, the file loop leaves the errors dict untouched
(provided the schema fetch and payload decode — which for `taskData.json`
happen *before* the exemption check — succeed). -/
theorem validate_files_all_skipped {Schema J : Type} (archive_map : ArchiveMap)
    (ver : Option String) (app_id : PyVal) (aid : String) (rev : Int)
    (fetchSchema : String → Except PyErr Schema)
    (validateAgainst : J → Schema → String → List String)
    (payloads : String → Except PyErr J) (contents : List String)
    (errors : List (String × SchemaResolution))
    (hfiles : ∀ p ∈ contents,
        (get_json_schema archive_map (basename p) app_id aid rev ver).url = none ∨
        p = "taskData.json")
    (hfetch : ∀ u, ∃ s, fetchSchema u = .ok s)
    (hload : ∀ p ∈ contents, ∃ j, payloads p = .ok j) :
    validate_files archive_map ver app_id aid rev fetchSchema validateAgainst
      payloads contents errors = .ok errors := by
  induction contents generalizing errors with
  | nil => rfl
  | cons p rest ih =>
      have hf2 : ∀ q ∈ rest,
          (get_json_schema archive_map (basename q) app_id aid rev ver).url = none ∨
          q = "taskData.json" := fun q hq => hfiles q (List.mem_cons_of_mem p hq)
      have hl2 : ∀ q ∈ rest, ∃ j, payloads q = .ok j :=
        fun q hq => hload q (List.mem_cons_of_mem p hq)
      rcases hfiles p (List.mem_cons_self p rest) with hurl | htask
      · rw [validate_files]
        simp only [hurl]
        exact ih errors hf2 hl2
      · subst htask
        rw [validate_files]
        cases hurl : (get_json_schema archive_map (basename "taskData.json") app_id
            aid rev ver).url with
        | none =>
            simp only [hurl]
            exact ih errors hf2 hl2
        | some url =>
            obtain ⟨sch, hsch⟩ := hfetch url
            obtain ⟨j, hj⟩ := hload "taskData.json" (List.mem_cons_self _ rest)
            simp only [hurl, hsch, hj, if_pos rfl]
            exact ih errors hf2 hl2

/-- Claim C8: a record whose every contained file either has no resolvable
schema (`url = none`) or is the exempt `taskData.json` entry ends validation
as valid, with an empty errors dict, whatever the injected validator
reports; the exempt entry is skipped regardless of the outcome of its
schema resolution (its schema, when resolved, is still fetched — hence the
fetch/decode success hypotheses — but never applied). -/
theorem claim_C8_all_skipped_valid {Schema J : Type} (archive_map : ArchiveMap)
    (ver : Option String) (fetchSchema : String → Except PyErr Schema)
    (validateAgainst : J → Schema → String → List String) (obj : S3Object J)
    (rev : Int) (client_info : List (String × PyVal)) (app_id : PyVal)
    (hrev : pyIntOfString obj.assessmentrevision = some rev)
    (hci : parse_client_info_metadata obj.clientinfo_json obj.clientinfo = .ok client_info)
    (happ : assocFind client_info "appName" = some app_id)
    (hfiles : ∀ p ∈ obj.contents,
        (get_json_schema archive_map (basename p) app_id obj.assessmentid rev ver).url
          = none ∨ p = "taskData.json")
    (hfetch : ∀ u, ∃ s, fetchSchema u = .ok s)
    (hload : ∀ p ∈ obj.contents, ∃ j, obj.payloads p = .ok j) :
    validate_data_obj archive_map ver fetchSchema validateAgainst obj =
      .ok { assessmendId := obj.assessmentid
            assessmentRevision := rev
            appId := app_id
            recordId := obj.recordid
            errors := [] } := by
  rw [validate_data_obj]
  simp only [hrev, hci, pyDictGet, happ,
    validate_files_all_skipped archive_map ver app_id obj.assessmentid rev
      fetchSchema validateAgainst obj.payloads obj.contents [] hfiles hfetch hload]

/-- Archive map for the C8 witness: the exempt entry resolves to a schema
through the global fallback; the other entry resolves to nothing. -/
def c8Map : ArchiveMap :=
  { assessments := []
    apps := []
    anyOf := [⟨"taskData.json", some "http://s/task.json"⟩] }

/-- S3 object for the C8 witness. -/
def c8Obj : S3Object Unit :=
  { assessmentid := "A"
    assessmentrevision := "5"
    clientinfo := "x"
    clientinfo_json := some [("appName", .str "test-app")]
    recordid := "r1"
    contents := ["taskData.json", "misc.json"]
    payloads := fun _ => .ok () }

/-- Claim C8 (witness): at `c8Obj`, `taskData.json` resolves to a URL yet is
exempt, `misc.json` resolves to nothing, and the record is valid with empty
errors even under a validator that rejects everything. -/
theorem claim_C8_witness :
    (get_json_schema c8Map (basename "taskData.json") (.str "test-app") "A" 5 none).url
      = some "http://s/task.json" ∧
    (get_json_schema c8Map (basename "misc.json") (.str "test-app") "A" 5 none).url
      = none ∧
    validate_data_obj c8Map none (fun _ => .ok ()) (fun _ _ _ => ["bad"]) c8Obj =
      .ok { assessmendId := "A", assessmentRevision := 5, appId := .str "test-app"
            recordId := "r1", errors := [] } := by
  refine ⟨by decide, by decide, ?_⟩
  exact claim_C8_all_skipped_valid c8Map none (fun _ => .ok ())
    (fun _ _ _ => ["bad"]) c8Obj 5 [("appName", .str "test-app")] (.str "test-app")
    (by rfl) (by rfl) (by rfl)
    (by intro p hp
        rcases List.mem_cons.mp hp with rfl | hp2
        · right; rfl
        · rcases List.mem_cons.mp hp2 with rfl | hp3
          · left; decide
          · exact absurd hp3 (List.not_mem_nil p))
    (fun u => ⟨(), rfl⟩) (fun p hp => ⟨(), rfl⟩)

/-! ## Claims about the per-record loop -/

/-- Unfolding step of the aggregation fold. -/
theorem aggLoop_cons {M : Type} (m : Groups M) (r : AggRecord M) (l : List (AggRecord M)) :
    aggLoop m (r :: l) = aggLoop (addRecord m r.app r.studies r.payload) l := by
  simp [aggLoop]

/-- Archive map for the C4 counterexample: one globally resolvable file. -/
def c4Map : ArchiveMap :=
  { assessments := []
    apps := []
    anyOf := [⟨"data.json", some "http://s/data.json"⟩] }

/-- First record's S3 object: contains a file whose schema must be
fetched. -/
def c4Obj1 : S3Object Unit :=
  { assessmentid := "A"
    assessmentrevision := "1"
    clientinfo := "x"
    clientinfo_json := some [("appName", .str "app1")]
    recordid := "r1"
    contents := ["data.json"]
    payloads := fun _ => .ok () }

/-- Second record's S3 object: an empty archive, trivially valid. -/
def c4Obj2 : S3Object Unit :=
  { assessmentid := "A"
    assessmentrevision := "1"
    clientinfo := "x"
    clientinfo_json := some [("appName", .str "app1")]
    recordid := "r2"
    contents := []
    payloads := fun _ => .ok () }

/-- S3 oracle for the counterexample: key `k1` is the record that needs a
schema fetch, any other key is the trivially valid record. -/
def c4s3Get : MessageParameters → Except PyErr (S3Object Unit) :=
  fun mp => if mp.source_key = "k1" then .ok c4Obj1 else .ok c4Obj2

/-- A schema fetcher whose network is down: every fetch raises. -/
def c4FetchFail : String → Except PyErr Unit := fun _ => .error .connectionError

/-- A validator that never reports violations. -/
def c4Validator : Unit → Unit → String → List String := fun _ _ _ => []

/-- First handler record of the counterexample. -/
def c4r1 : HandlerRecord := ⟨"b", "k1", "f", ["s1"], "app1"⟩

/-- Second handler record of the counterexample. -/
def c4r2 : HandlerRecord := ⟨"b", "k2", "f", ["s1"], "app1"⟩

/-- Claim C4 (counterexample): with the schema fetch failing on the first
record, the whole invocation aborts with that record's exception — the
second record, which on its own processes fine and lands in its batch, is
never processed and no batches survive.  A fetch failure is therefore not
isolated to the record being processed; it aborts the rest of the
invocation (the source loop has no try/except). -/
theorem claim_C4_counterexample :
    process_records c4Map none c4FetchFail c4Validator c4s3Get ⟨[], []⟩ [c4r1, c4r2]
      = .error .connectionError ∧
    process_records c4Map none c4FetchFail c4Validator c4s3Get ⟨[], []⟩ [c4r2]
      = .ok ⟨[("app1", [("s1", [⟨"b", "k2", "f"⟩])])], []⟩ := by
  exact ⟨rfl, rfl⟩

/-- Claim C4 (amended): a failure (e.g. a network failure while retrieving
a schema document) raised while processing one record propagates out of the
per-record loop and aborts the entire invocation: whatever records follow,
the loop's result is that record's exception and the subsequent records are
never processed. -/
theorem claim_C4_amended {Schema J : Type} (archive_map : ArchiveMap)
    (ver : Option String) (fetchSchema : String → Except PyErr Schema)
    (validateAgainst : J → Schema → String → List String)
    (s3Get : MessageParameters → Except PyErr (S3Object J))
    (st : HandlerState) (r : HandlerRecord) (rest : List HandlerRecord) (e : PyErr)
    (h : process_record archive_map ver fetchSchema validateAgainst s3Get st r
        = .error e) :
    process_records archive_map ver fetchSchema validateAgainst s3Get st (r :: rest)
      = .error e := by
  rw [process_records, h]

/-- Claim C4 (witness for the amended theorem), at the counterexample's
concrete data. -/
theorem claim_C4_witness :
    process_record c4Map none c4FetchFail c4Validator c4s3Get ⟨[], []⟩ c4r1
      = .error .connectionError ∧
    process_records c4Map none c4FetchFail c4Validator c4s3Get ⟨[], []⟩ [c4r1, c4r2]
      = .error .connectionError := by
  exact ⟨rfl, claim_C4_amended c4Map none c4FetchFail c4Validator c4s3Get
    ⟨[], []⟩ c4r1 [c4r2] .connectionError rfl⟩

/-- Claim C5: over an invocation whose records all validate without raising,
the loop succeeds, the invalid-records side channel (the sequence of
validation results passed to `mark_as_invalid`, whose body is currently a
stub in the source) receives exactly the records whose errors dict is
non-empty, in order — and the batch dict is the pure aggregation of *all*
records, valid and invalid alike: an invalid record is still batched under
every one of its studies exactly like a valid one (both actions happen). -/
theorem claim_C5_invalid_routed_and_batched {Schema J : Type} (archive_map : ArchiveMap)
    (ver : Option String) (fetchSchema : String → Except PyErr Schema)
    (validateAgainst : J → Schema → String → List String)
    (s3Get : MessageParameters → Except PyErr (S3Object J))
    (recs : List HandlerRecord) (st : HandlerState)
    (h : ∀ r ∈ recs, ∃ vr, validate_data archive_map ver fetchSchema validateAgainst s3Get
        ⟨r.s3Bucket, r.s3Key, r.rawFolderId⟩ = .ok vr) :
    ∃ stf, process_records archive_map ver fetchSchema validateAgainst s3Get st recs
        = .ok stf ∧
      stf.invalids = st.invalids ++ (recs.filterMap fun r =>
        match validate_data archive_map ver fetchSchema validateAgainst s3Get
            ⟨r.s3Bucket, r.s3Key, r.rawFolderId⟩ with
        | .ok vr => if vr.errors.length > 0 then some vr else none
        | .error _ => none) ∧
      stf.messages = aggLoop st.messages (recs.map fun r =>
        ⟨r.appId, r.studyRecords, ⟨r.s3Bucket, r.s3Key, r.rawFolderId⟩⟩) := by
  induction recs generalizing st with
  | nil => exact ⟨st, rfl, by simp, by simp [aggLoop]⟩
  | cons r rest ih =>
      obtain ⟨vr, hvr⟩ := h r (List.mem_cons_self r rest)
      have h2 : ∀ q ∈ rest, ∃ vr, validate_data archive_map ver fetchSchema
          validateAgainst s3Get ⟨q.s3Bucket, q.s3Key, q.rawFolderId⟩ = .ok vr :=
        fun q hq => h q (List.mem_cons_of_mem r hq)
      by_cases herr : vr.errors.length > 0
      · have hstep : process_records archive_map ver fetchSchema validateAgainst s3Get
            st (r :: rest)
            = process_records archive_map ver fetchSchema validateAgainst s3Get
              ⟨addRecord st.messages r.appId r.studyRecords
                ⟨r.s3Bucket, r.s3Key, r.rawFolderId⟩, st.invalids ++ [vr]⟩ rest := by
          rw [process_records, process_record]
          simp only [hvr, if_pos herr]
        obtain ⟨stf, hrec, hinv, hmsg⟩ := ih ⟨addRecord st.messages r.appId
          r.studyRecords ⟨r.s3Bucket, r.s3Key, r.rawFolderId⟩, st.invalids ++ [vr]⟩ h2
        refine ⟨stf, hstep.trans hrec, ?_, ?_⟩
        · rw [hinv]
          simp only [List.filterMap_cons, hvr, if_pos herr, List.append_assoc,
            List.singleton_append]
        · rw [hmsg, List.map_cons, aggLoop_cons]
      · have hstep : process_records archive_map ver fetchSchema validateAgainst s3Get
            st (r :: rest)
            = process_records archive_map ver fetchSchema validateAgainst s3Get
              ⟨addRecord st.messages r.appId r.studyRecords
                ⟨r.s3Bucket, r.s3Key, r.rawFolderId⟩, st.invalids⟩ rest := by
          rw [process_records, process_record]
          simp only [hvr, if_neg herr]
        obtain ⟨stf, hrec, hinv, hmsg⟩ := ih ⟨addRecord st.messages r.appId
          r.studyRecords ⟨r.s3Bucket, r.s3Key, r.rawFolderId⟩, st.invalids⟩ h2
        refine ⟨stf, hstep.trans hrec, ?_, ?_⟩
        · rw [hinv]
          simp only [List.filterMap_cons, hvr, if_neg herr]
        · rw [hmsg, List.map_cons, aggLoop_cons]

/-- Archive map for the C5 witness: one globally resolvable file. -/
def c5Map : ArchiveMap :=
  { assessments := []
    apps := []
    anyOf := [⟨"data.json", some "http://s/data.json"⟩] }

/-- S3 object for the C5 witness record. -/
def c5Obj : S3Object Unit :=
  { assessmentid := "A"
    assessmentrevision := "1"
    clientinfo := "x"
    clientinfo_json := some [("appName", .str "app1")]
    recordid := "r1"
    contents := ["data.json"]
    payloads := fun _ => .ok () }

/-- S3 oracle for the C5 witness. -/
def c5s3Get : MessageParameters → Except PyErr (S3Object Unit) := fun _ => .ok c5Obj

/-- A schema fetcher that always succeeds. -/
def c5Fetch : String → Except PyErr Unit := fun _ => .ok ()

/-- A validator that reports one violation for every file: the witness
record is invalid. -/
def c5Validator : Unit → Unit → String → List String := fun _ _ _ => ["violation"]

/-- The C5 witness handler record. -/
def c5rec : HandlerRecord := ⟨"b", "k1", "f", ["s1"], "app1"⟩

/-- Claim C5 (witness): a concrete invalid record is both passed to the
side channel and batched under its study. -/
theorem claim_C5_witness :
    (∀ r ∈ [c5rec], ∃ vr, validate_data c5Map none c5Fetch c5Validator c5s3Get
        ⟨r.s3Bucket, r.s3Key, r.rawFolderId⟩ = .ok vr) ∧
    ∃ stf, process_records c5Map none c5Fetch c5Validator c5s3Get ⟨[], []⟩ [c5rec]
        = .ok stf ∧
      stf.invalids = ([] : List ValidationResult) ++ ([c5rec].filterMap fun r =>
        match validate_data c5Map none c5Fetch c5Validator c5s3Get
            ⟨r.s3Bucket, r.s3Key, r.rawFolderId⟩ with
        | .ok vr => if vr.errors.length > 0 then some vr else none
        | .error _ => none) ∧
      stf.messages = aggLoop ([] : Groups MessageParameters) ([c5rec].map fun r =>
        ⟨r.appId, r.studyRecords, ⟨r.s3Bucket, r.s3Key, r.rawFolderId⟩⟩) := by
  have h : ∀ r ∈ [c5rec], ∃ vr, validate_data c5Map none c5Fetch c5Validator c5s3Get
      ⟨r.s3Bucket, r.s3Key, r.rawFolderId⟩ = .ok vr := by
    intro r hr
    rw [List.mem_singleton.mp hr]
    exact ⟨_, rfl⟩
  exact ⟨h, claim_C5_invalid_routed_and_batched c5Map none c5Fetch c5Validator
    c5s3Get [c5rec] ⟨[], []⟩ h⟩

end BridgeDownstream
